import Mathlib

set_option maxHeartbeats 1000000

namespace DyCoT

/-- Characters of a Python string, the carrier type of the embedding. -/
abbrev Str := List Char

/-- Python regex whitespace class for ASCII input. -/
def isPySpace (c : Char) : Bool :=
  c == ' ' || c == '\t' || c == '\n' || c == '\r' || c == '\x0b' || c == '\x0c'

/-- Python regex word-character class for ASCII input. -/
def isWordChar (c : Char) : Bool :=
  c.isAlpha || c.isDigit || c == '_'

/-- Case-insensitive character comparison. -/
def lowEq (a b : Char) : Bool := a.toLower == b.toLower

/-- Match a literal keyword case-insensitively at the head of the input and return the rest. -/
def matchCI : Str → Str → Option Str
  | [], s => some s
  | _ :: _, [] => none
  | k :: ks, c :: cs => if lowEq k c then matchCI ks cs else none

/-- Python str.startswith. -/
def begWith : Str → Str → Bool
  | [], _ => true
  | _ :: _, [] => false
  | p :: ps, c :: cs => p == c && begWith ps cs

/-- Python str.strip of whitespace on the left. -/
def lstripWs (s : Str) : Str := s.dropWhile isPySpace

/-- Python str.strip of whitespace on both ends. -/
def stripWs (s : Str) : Str := ((s.dropWhile isPySpace).reverse.dropWhile isPySpace).reverse

/-- Python str.lstrip of a colon character, removing every leading colon. -/
def dropColons (s : Str) : Str := s.dropWhile (fun c => c == ':')

/-- Substring test, used to state counterexamples about text surviving a transformation. -/
def hasSub (pat : Str) : Str → Bool
  | [] => begWith pat []
  | c :: cs => begWith pat (c :: cs) || hasSub pat cs

/-- PREFIX_MAP of preprocessors.py: namespace to short token, in source insertion order. -/
def NS_MAP : List (Str × Str) := [
  ("http://dbpedia.org/ontology/".data, "dbo".data),
  ("http://dbpedia.org/property/".data, "dbp".data),
  ("http://dbpedia.org/resource/".data, "res".data),
  ("http://dbpedia.org/class/yago/".data, "yago".data),
  ("http://www.w3.org/2000/01/rdf-schema#".data, "rdfs".data),
  ("http://www.w3.org/1999/02/22-rdf-syntax-ns#".data, "rdf".data),
  ("http://www.w3.org/2002/07/owl#".data, "owl".data),
  ("http://www.w3.org/2001/XMLSchema#".data, "xsd".data),
  ("http://xmlns.com/foaf/0.1/".data, "foaf".data),
  ("http://purl.org/dc/elements/1.1/".data, "dc".data),
  ("http://purl.org/dc/terms/".data, "dcterms".data),
  ("http://www.w3.org/2004/02/skos/core#".data, "skos".data),
  ("http://www.w3.org/2003/01/geo/wgs84_pos#".data, "geo".data),
  ("http://www.georss.org/georss/".data, "georss".data),
  ("http://dbpedia.org/".data, "dbpedia".data),
  ("http://purl.org/linguistics/gold/".data, "gold".data)]

/-- Stable insertion of a pair into a list kept sorted by descending namespace length. -/
def insDesc (p : Str × Str) : List (Str × Str) → List (Str × Str)
  | [] => [p]
  | q :: qs => if p.1.length ≤ q.1.length then q :: insDesc p qs else p :: q :: qs

/-- Stable sort driver processing pairs in original order. -/
def sortAux : List (Str × Str) → List (Str × Str) → List (Str × Str)
  | acc, [] => acc
  | acc, p :: ps => sortAux (insDesc p acc) ps

/-- Python sorted with key minus-length, a stable sort by descending namespace length. -/
def sortDesc (l : List (Str × Str)) : List (Str × Str) := sortAux [] l

/-- The sorted namespace table of preprocessors.py, tried longest namespace first. -/
def NS_ORDER : List (Str × Str) := sortDesc NS_MAP

/-- Linear scan of the sorted namespace table, mirroring the loop in the source. -/
def findNsIn : List (Str × Str) → Str → Option (Str × Str)
  | [], _ => none
  | p :: ps, uri => if begWith p.1 uri then some p else findNsIn ps uri

/-- Lookup of the first namespace in sorted order that the IRI starts with. -/
def findNs (uri : Str) : Option (Str × Str) := findNsIn NS_ORDER uri

/-- Replacement function for one matched bracketed IRI: m is the whole match, g the group. -/
def replUri (m g : Str) : Str :=
  let uri := stripWs g
  match findNs uri with
  | some (ns, pfx) => pfx ++ ':' :: dropColons (uri.drop ns.length)
  | none => m

/-- Word-boundary test against the character before the current position. -/
def boundaryOk : Option Char → Bool
  | none => true
  | some c => ! isWordChar c

/-- Check whether the SELECT keyword with word boundaries matches at the head of s. -/
def selHere (prev : Option Char) (s : Str) : Bool :=
  boundaryOk prev &&
    (match matchCI "select".data s with
     | some [] => true
     | some (d :: _) => ! isWordChar d
     | none => false)

/-- Search driver for the first SELECT keyword occurrence. -/
def selAux : Option Char → Str → Nat → Option Nat
  | _, [], _ => none
  | prev, c :: cs, i =>
    if selHere prev (c :: cs) then some i else selAux (some c) cs (i + 1)

/-- Python re.search for a word-bounded case-insensitive SELECT, returning the match start. -/
def selectSearch (s : Str) : Option Nat := selAux none s 0

/-- Character class of the group of the bracketed-IRI pattern. -/
def runChar (c : Char) : Bool := !(isPySpace c) && !(c == '>')

/-- Match the bracketed-IRI pattern at the head of s, returning match text, group and rest. -/
def iriMatchAt : Str → Option (Str × Str × Str)
  | [] => none
  | c :: t =>
    if c = '<' then
      let w1 := t.takeWhile isPySpace
      let t1 := t.dropWhile isPySpace
      let g := t1.takeWhile runChar
      let t2 := t1.dropWhile runChar
      let w2 := t2.takeWhile isPySpace
      let t3 := t2.dropWhile isPySpace
      if g = [] then none
      else if t3.head? = some '>' then some ('<' :: (w1 ++ g ++ w2 ++ ['>']), g, t3.tail)
      else none
    else none

/-- Fuelled substitution pass replacing every bracketed IRI, scanning left to right. -/
def iriSubF : Nat → Str → Str
  | 0, s => s
  | _ + 1, [] => []
  | f + 1, c :: cs =>
    match iriMatchAt (c :: cs) with
    | some (m, g, rest) => replUri m g ++ iriSubF f rest
    | none => c :: iriSubF f cs

/-- Substitution pass over a whole string, with fuel covering its length. -/
def iriSub (s : Str) : Str := iriSubF s.length s

/-- The function uri_collapse_after_select of preprocessors.py. -/
def uriCollapseAfterSelect (s : Str) : Str :=
  match selectSearch s with
  | none => s
  | some i => iriSub (stripWs (s.drop i))

/-- Match the PREFIX-declaration pattern at the head of s, returning groups and rest. -/
def pfxMatchAt (s : Str) : Option ((Str × Str) × Str) :=
  match matchCI "prefix".data s with
  | none => none
  | some r1 =>
    let w := r1.takeWhile isPySpace
    if w = [] then none
    else
      let r2 := r1.dropWhile isPySpace
      let g1 := r2.takeWhile (fun c => c.isAlpha || c.isDigit)
      if g1 = [] then none
      else
        match r2.dropWhile (fun c => c.isAlpha || c.isDigit) with
        | ':' :: r3 =>
          match r3.dropWhile isPySpace with
          | '<' :: r4 =>
            let g2 := r4.takeWhile (fun c => !(c == '>'))
            if g2 = [] then none
            else
              match r4.dropWhile (fun c => !(c == '>')) with
              | '>' :: rest => some ((g1, g2), rest)
              | _ => none
          | _ => none
        | _ => none

/-- Fuelled findall for PREFIX declarations, continuing after each match. -/
def pfxFindallF : Nat → Str → List (Str × Str)
  | 0, _ => []
  | _ + 1, [] => []
  | f + 1, c :: cs =>
    match pfxMatchAt (c :: cs) with
    | some (g, rest) => g :: pfxFindallF f rest
    | none => pfxFindallF f cs

/-- Python re.findall of the PREFIX pattern over a query text. -/
def pfxFindall (s : Str) : List (Str × Str) := pfxFindallF s.length s

/-- Association lookup, the first binding of a key wins. -/
def lookupA {α : Type} : List (Str × α) → Str → Option α
  | [], _ => none
  | (k, v) :: rest, key => if k = key then some v else lookupA rest key

/-- Python dict insertion: an existing key keeps its position and takes the new value. -/
def dictIns (d : List (Str × Str)) (k v : Str) : List (Str × Str) :=
  match d with
  | [] => [(k, v)]
  | (k2, v2) :: rest => if k2 = k then (k2, v) :: rest else (k2, v2) :: dictIns rest k v

/-- Python dict built from a pair list, later duplicate keys overwriting earlier values. -/
def dictOfPairs (ps : List (Str × Str)) : List (Str × Str) :=
  ps.foldl (fun d p => dictIns d p.1 p.2) []

/-- Python dict.setdefault: insert only when the key is absent. -/
def setdefault (g : List (Str × Str)) (k v : Str) : List (Str × Str) :=
  if (lookupA g k).isSome then g else g ++ [(k, v)]

/-- Merge a record-local table into the global table with first writer wins. -/
def mergePfx (g : List (Str × Str)) (l : List (Str × Str)) : List (Str × Str) :=
  l.foldl (fun acc p => setdefault acc p.1 p.2) g

/-- Index of the first closing brace in a list. -/
def idxOfClose : Str → Option Nat
  | [] => none
  | c :: cs => if c = '\x7d' then some 0 else (idxOfClose cs).map (· + 1)

/-- Match the non-greedy WHERE-clause pattern at the head of s, returning the group. -/
def whereMatchAt (s : Str) : Option Str :=
  match matchCI "where".data s with
  | none => none
  | some r1 =>
    match r1.dropWhile isPySpace with
    | '\x7b' :: t =>
      match t with
      | [] => none
      | _ :: t2 => (idxOfClose t2).map (fun j => t.take (j + 1))
    | _ => none

/-- Python re.search of the WHERE pattern, returning the first group found. -/
def whereSearch : Str → Option Str
  | [] => none
  | c :: cs =>
    match whereMatchAt (c :: cs) with
    | some g => some g
    | none => whereSearch cs

/-- Driver of _top_level_blocks, walking characters with a depth counter. -/
def tlbAux : Str → List Str → Str → Int → List Str
  | [], blocks, buf, _ =>
    let tail := stripWs buf
    if tail = [] then blocks else blocks ++ [tail]
  | c :: cs, blocks, buf, depth =>
    if c = '\x7b' then
      let blocks2 := if depth = 0 && !buf.isEmpty then blocks ++ [stripWs buf] else blocks
      let buf2 : Str := if depth = 0 && !buf.isEmpty then [] else buf
      let depth2 := depth + 1
      let buf3 := if depth2 > 1 then buf2 ++ [c] else buf2
      tlbAux cs blocks2 buf3 depth2
    else if c = '\x7d' then
      let depth2 := depth - 1
      if depth2 > 0 then tlbAux cs blocks (buf ++ [c]) depth2
      else tlbAux cs (blocks ++ [stripWs buf]) [] depth2
    else tlbAux cs blocks (buf ++ [c]) depth

/-- The function _top_level_blocks of sparql_parser.py. -/
def topLevelBlocks (w : Str) : List Str := tlbAux w [] [] 0

/-- Match one clause pattern with a parenthesised body, FILTER or BIND. -/
def parenClauseAt (kw : Str) (s : Str) : Option Str :=
  match matchCI kw s with
  | none => none
  | some r1 =>
    match r1.dropWhile isPySpace with
    | '(' :: t =>
      match t.dropWhile (fun c => !(c == ')')) with
      | ')' :: rest => some rest
      | _ => none
    | _ => none

/-- Character allowed after GROUP BY, HAVING and ORDER BY, anything but dot or closing brace. -/
def notDotBrace (c : Char) : Bool := !(c == '.') && !(c == '\x7d')

/-- Match the GROUP BY or ORDER BY clause pattern at the head of s. -/
def kwByClauseAt (kw : Str) (s : Str) : Option Str :=
  match matchCI kw s with
  | none => none
  | some r1 =>
    if (r1.takeWhile isPySpace) = [] then none
    else
      match matchCI "by".data (r1.dropWhile isPySpace) with
      | none => none
      | some r2 => some (r2.dropWhile notDotBrace)

/-- Match the HAVING clause pattern at the head of s. -/
def havingClauseAt (s : Str) : Option Str :=
  match matchCI "having".data s with
  | none => none
  | some r1 => some (r1.dropWhile notDotBrace)

/-- Match the LIMIT or OFFSET clause pattern at the head of s. -/
def numClauseAt (kw : Str) (s : Str) : Option Str :=
  match matchCI kw s with
  | none => none
  | some r1 =>
    if (r1.takeWhile isPySpace) = [] then none
    else
      let r2 := r1.dropWhile isPySpace
      if (r2.takeWhile Char.isDigit) = [] then none
      else some (r2.dropWhile Char.isDigit)

/-- Fuelled deletion pass removing every occurrence of a clause pattern. -/
def delSubF (m : Str → Option Str) : Nat → Str → Str
  | 0, s => s
  | _ + 1, [] => []
  | f + 1, c :: cs =>
    match m (c :: cs) with
    | some rest => delSubF m f rest
    | none => c :: delSubF m f cs

/-- Deletion pass over a whole string. -/
def delSub (m : Str → Option Str) (s : Str) : Str := delSubF m s.length s

/-- The sequence of clause-stripping substitutions of _extract_triples, in source order. -/
def stripClauses (s : Str) : Str :=
  delSub (numClauseAt "offset".data)
    (delSub (numClauseAt "limit".data)
      (delSub (kwByClauseAt "order".data)
        (delSub havingClauseAt
          (delSub (kwByClauseAt "group".data)
            (delSub (parenClauseAt "bind".data)
              (delSub (parenClauseAt "filter".data) s))))))

/-- Character class of a bare-name token, excluding whitespace and separators. -/
def pnameChar (c : Char) : Bool :=
  !(isPySpace c) && !(c == ';') && !(c == ',') && !(c == '.') &&
    !(c == '\x7b') && !(c == '\x7d') && !(c == '(') && !(c == ')')

/-- Language-tag character class. -/
def tagChar (c : Char) : Bool := c.isAlpha || c == '-'

/-- Consume the interior of a quoted literal up to its closing quote. -/
def strBody : Str → Option (Str × Str)
  | [] => none
  | '"' :: r => some ([], r)
  | '\\' :: c :: r =>
    if c == '\n' then none
    else (strBody r).map (fun p => ('\\' :: c :: p.1, p.2))
  | '\\' :: [] => none
  | c :: r => (strBody r).map (fun p => (c :: p.1, p.2))

/-- Optional language-tag or datatype suffix after a quoted literal. -/
def strSuffix (s : Str) : Str × Str :=
  match s with
  | '@' :: r =>
    let tag := r.takeWhile tagChar
    if tag = [] then ([], s) else ('@' :: tag, r.dropWhile tagChar)
  | '^' :: '^' :: r =>
    let ty := r.takeWhile pnameChar
    if ty = [] then ([], s) else ('^' :: '^' :: ty, r.dropWhile pnameChar)
  | _ => ([], s)

/-- Match a quoted-literal token at the head of s. -/
def stringMatchAt : Str → Option (Str × Str)
  | '"' :: r =>
    match strBody r with
    | none => none
    | some (b, rest1) =>
      let p := strSuffix rest1
      some ('"' :: b ++ '"' :: p.1, p.2)
  | _ => none

/-- Match a bracketed-IRI token at the head of s, the group possibly empty. -/
def iriTokMatchAt : Str → Option (Str × Str)
  | '<' :: r =>
    match r.dropWhile (fun c => !(c == '>')) with
    | '>' :: rest => some ('<' :: r.takeWhile (fun c => !(c == '>')) ++ ['>'], rest)
    | _ => none
  | _ => none

/-- Match a bare-name token at the head of s. -/
def pnameMatchAt (s : Str) : Option (Str × Str) :=
  let run := s.takeWhile pnameChar
  if run = [] then none else some (run, s.dropWhile pnameChar)

/-- Match a separator token at the head of s. -/
def sepMatchAt : Str → Option (Str × Str)
  | c :: cs => if c == ';' || c == ',' || c == '.' then some ([c], cs) else none
  | [] => none

/-- Ordered alternation of the token pattern, first alternative that matches wins. -/
def tokMatchAt (s : Str) : Option (Str × Str) :=
  match stringMatchAt s with
  | some r => some r
  | none =>
    match iriTokMatchAt s with
    | some r => some r
    | none =>
      match pnameMatchAt s with
      | some r => some r
      | none => sepMatchAt s

/-- Fuelled findall of the token pattern. -/
def findTokensF : Nat → Str → List Str
  | 0, _ => []
  | _ + 1, [] => []
  | f + 1, c :: cs =>
    match tokMatchAt (c :: cs) with
    | some (tok, rest) => tok :: findTokensF f rest
    | none => findTokensF f cs

/-- Python re.findall of the token pattern over a block. -/
def findTokens (s : Str) : List Str := findTokensF s.length s

/-- Triple-assembly state machine of _extract_triples, walking the token list. -/
def tripLoop : List Str → Option Str → Option Str → List (List Str)
  | [], _, _ => []
  | t :: ts, subj, pred =>
    if t = ['.'] then tripLoop ts none none
    else if t = [';'] then tripLoop ts subj none
    else if t = [','] then tripLoop ts subj pred
    else
      match subj with
      | none => tripLoop ts (some t) pred
      | some sv =>
        match pred with
        | none => tripLoop ts (some sv) (some t)
        | some pv => [sv, pv, t] :: tripLoop ts (some sv) (some pv)

/-- The function _extract_triples of sparql_parser.py. -/
def extractTriples (block : Str) : List (List Str) :=
  tripLoop (findTokens (stripClauses block)) none none

/-- Python str.split on the first colon, when one is present. -/
def splitFirstColon : Str → Option (Str × Str)
  | [] => none
  | ':' :: rest => some ([], rest)
  | c :: rest => (splitFirstColon rest).map (fun p => (c :: p.1, p.2))

/-- Token expansion of parse_sparql, consulting only the record-local prefix table. -/
def expandTok (locl : List (Str × Str)) (tok : Str) : Str :=
  match splitFirstColon tok with
  | none => tok
  | some (p, t) =>
    match lookupA locl p with
    | some ns => ns ++ ':' :: t
    | none => tok

/-- One attached answer entry of a record: a bare boolean, or a variable-keyed mapping. -/
inductive Answer where
  | bool (b : Bool)
  | map (entries : List (Str × List (Str × Str)))
deriving DecidableEq

/-- Append an answer value under its variable, creating the entry on first use. -/
def addAns (m : List (Str × List Str)) (k : Str) (v : Str) : List (Str × List Str) :=
  match m with
  | [] => [(k, [v])]
  | (k2, vs) :: rest => if k2 = k then (k2, vs ++ [v]) :: rest else (k2, vs) :: addAns rest k v

/-- Driver of the answer-indexing loop, raising on an empty mapping or a missing value field. -/
def ansGo (acc : List (Str × List Str)) : List Answer → Except Unit (List (Str × List Str))
  | [] => .ok acc
  | .bool _ :: rest => ansGo acc rest
  | .map [] :: _ => .error ()
  | .map ((k, obj) :: _) :: rest =>
    match lookupA obj "value".data with
    | some v => ansGo (addAns acc k v) rest
    | none => .error ()

/-- Answer indexing of parse_sparql over the answers list of one record. -/
def processAnswers (l : List Answer) : Except Unit (List (Str × List Str)) := ansGo [] l

/-- An input record as parse_sparql reads it. -/
structure Record where
  formatedQuery : Option Str
  query : Option Str
  answers : List Answer
deriving DecidableEq

/-- Python falsy-or on an optional string and a fallback. -/
def pyOr (x : Option Str) (y : Str) : Str :=
  match x with
  | some s => if s = [] then y else s
  | none => y

/-- Query-text resolution of parse_sparql, preferring formated_query. -/
def effQuery (r : Record) : Str := pyOr r.formatedQuery (pyOr r.query [])

/-- The fields parse_sparql adds to a record. -/
structure RecordOut where
  answersValue : List (Str × List Str)
  triples : List (List Str)
deriving DecidableEq

/-- Record-local prefix table built by parse_sparql from the query text. -/
def locTbl (r : Record) : List (Str × Str) := dictOfPairs (pfxFindall (effQuery r))

/-- Processing of one record by parse_sparql, threading the global prefix table. -/
def processRecord (g : List (Str × Str)) (r : Record) :
    Except Unit (List (Str × Str) × RecordOut) :=
  match processAnswers r.answers with
  | .error e => .error e
  | .ok ansMap =>
    match whereSearch (effQuery r) with
    | none => .ok (mergePfx g (locTbl r), ⟨ansMap, []⟩)
    | some whereTxt =>
      .ok (mergePfx g (locTbl r),
        ⟨ansMap, (((topLevelBlocks whereTxt).map extractTriples).flatten).map
          (fun tri => tri.map (expandTok (locTbl r)))⟩)

/-- The batch loop of SparqlParser.parse_sparql, threading the global prefix table. -/
def parseSparqlAux (g : List (Str × Str)) :
    List Record → Except Unit (List (Str × Str) × List RecordOut)
  | [] => .ok (g, [])
  | r :: rs =>
    match processRecord g r with
    | .error e => .error e
    | .ok (g1, out) =>
      match parseSparqlAux g1 rs with
      | .error e => .error e
      | .ok (g2, outs) => .ok (g2, out :: outs)

/-- A freshly constructed SparqlParser running a batch, the global table starting empty. -/
def parserRun (rs : List Record) : Except Unit (List (Str × Str) × List RecordOut) :=
  parseSparqlAux [] rs

/-- Success test for the embedded exception monad. -/
def exOk {α : Type} : Except Unit α → Bool
  | .ok _ => true
  | .error _ => false

/-- Well-formedness of one answer entry, the precondition of answer indexing. -/
def goodAns : Answer → Bool
  | .bool _ => true
  | .map [] => false
  | .map ((_, obj) :: _) => (lookupA obj "value".data).isSome

/-- A string starts with itself followed by anything. -/
theorem begWith_append (a s : Str) : begWith a (a ++ s) = true := by
  induction a with
  | nil => rfl
  | cons c cs ih => simp [begWith, ih]

/-- Starting with a long string over an appended base forces starting with the base. -/
theorem begWith_of_append_le (base ns s : Str) (hl : base.length ≤ ns.length)
    (h : begWith ns (base ++ s) = true) : begWith base ns = true := by
  induction base generalizing ns s with
  | nil => rfl
  | cons b bs ih =>
    cases ns with
    | nil => simp at hl
    | cons n ns2 =>
      simp only [List.cons_append, begWith, Bool.and_eq_true, beq_iff_eq] at h ⊢
      exact ⟨h.1.symm, ih ns2 s (by simpa using hl) h.2⟩

/-- Contrapositive form used to discharge namespace-order lookups symbolically. -/
theorem begWith_append_false (base ns s : Str) (hl : base.length ≤ ns.length)
    (hns : begWith base ns = false) : begWith ns (base ++ s) = false := by
  cases h2 : begWith ns (base ++ s) with
  | false => rfl
  | true =>
    have := begWith_of_append_le base ns s hl h2
    rw [hns] at this
    cases this

/-- A string another starts with is at most as long. -/
theorem begWith_length_le (a b : Str) (h : begWith a b = true) : a.length ≤ b.length := by
  induction a generalizing b with
  | nil => simp
  | cons c cs ih =>
    cases b with
    | nil => cases h
    | cons d ds =>
      simp only [begWith, Bool.and_eq_true] at h
      simpa using ih ds h.2

/-- Two strings of equal length where one starts with the other are equal. -/
theorem begWith_eq_of_length (a b : Str) (h : begWith a b = true) (hl : b.length ≤ a.length) :
    a = b := by
  induction a generalizing b with
  | nil => cases b with
    | nil => rfl
    | cons d ds => simp at hl
  | cons c cs ih =>
    cases b with
    | nil => cases h
    | cons d ds =>
      simp only [begWith, Bool.and_eq_true, beq_iff_eq] at h
      rw [h.1, ih ds h.2 (by simpa using hl)]

/-- Dropping whitespace from a whitespace-free string changes nothing. -/
theorem dropWhile_ws_eq_self (l : Str) (h : ∀ c ∈ l, isPySpace c = false) :
    l.dropWhile isPySpace = l := by
  cases l with
  | nil => rfl
  | cons c cs => simp [List.dropWhile, h c (by simp)]

/-- Stripping a whitespace-free string changes nothing. -/
theorem stripWs_eq_self (l : Str) (h : ∀ c ∈ l, isPySpace c = false) : stripWs l = l := by
  unfold stripWs
  rw [dropWhile_ws_eq_self l h,
    dropWhile_ws_eq_self l.reverse (fun c hc => h c (List.mem_reverse.mp hc)),
    List.reverse_reverse]

/-- Stable insertion permutes to plain cons. -/
theorem insDesc_perm (p : Str × Str) (l : List (Str × Str)) : (insDesc p l).Perm (p :: l) := by
  induction l with
  | nil => exact List.Perm.refl _
  | cons q qs ih =>
    rw [insDesc]
    split
    · exact (ih.cons q).trans (List.Perm.swap p q qs)
    · exact List.Perm.refl _

/-- The sort driver permutes to the concatenation of accumulator and input. -/
theorem sortAux_perm : ∀ (l acc : List (Str × Str)), (sortAux acc l).Perm (acc ++ l)
  | [], acc => by simp [sortAux]
  | p :: ps, acc => by
    have h1 := sortAux_perm ps (insDesc p acc)
    have h2 := (insDesc_perm p acc).append_right ps
    exact h1.trans (h2.trans (List.perm_middle.symm))

/-- The sorted namespace table is a permutation of the source table. -/
theorem nsOrder_perm : NS_ORDER.Perm NS_MAP := by
  have := sortAux_perm NS_MAP []
  simpa [NS_ORDER, sortDesc] using this

/-- Concrete value of the sorted namespace table, longest namespaces first. -/
theorem nsOrderEq : NS_ORDER = [
  ("http://www.w3.org/1999/02/22-rdf-syntax-ns#".data, "rdf".data),
  ("http://www.w3.org/2003/01/geo/wgs84_pos#".data, "geo".data),
  ("http://www.w3.org/2000/01/rdf-schema#".data, "rdfs".data),
  ("http://www.w3.org/2004/02/skos/core#".data, "skos".data),
  ("http://www.w3.org/2001/XMLSchema#".data, "xsd".data),
  ("http://purl.org/linguistics/gold/".data, "gold".data),
  ("http://purl.org/dc/elements/1.1/".data, "dc".data),
  ("http://dbpedia.org/class/yago/".data, "yago".data),
  ("http://www.w3.org/2002/07/owl#".data, "owl".data),
  ("http://www.georss.org/georss/".data, "georss".data),
  ("http://dbpedia.org/ontology/".data, "dbo".data),
  ("http://dbpedia.org/property/".data, "dbp".data),
  ("http://dbpedia.org/resource/".data, "res".data),
  ("http://xmlns.com/foaf/0.1/".data, "foaf".data),
  ("http://purl.org/dc/terms/".data, "dcterms".data),
  ("http://dbpedia.org/".data, "dbpedia".data)] := by rfl

/-- The sorted namespace table has weakly decreasing namespace lengths. -/
theorem nsOrder_sorted :
    List.Pairwise (fun a b : Str × Str => b.1.length ≤ a.1.length) NS_ORDER := by
  rw [nsOrderEq]
  decide

/-- A lookup step over a non-matching head skips it. -/
theorem findNsIn_cons_false (p : Str × Str) (ps : List (Str × Str)) (uri : Str)
    (h : begWith p.1 uri = false) : findNsIn (p :: ps) uri = findNsIn ps uri := by
  rw [findNsIn]
  simp [h]

/-- A lookup step over a matching head returns it. -/
theorem findNsIn_cons_true (p : Str × Str) (ps : List (Str × Str)) (uri : Str)
    (h : begWith p.1 uri = true) : findNsIn (p :: ps) uri = some p := by
  rw [findNsIn]
  simp [h]

/-- A successful namespace lookup returns a member that matches. -/
theorem findNsIn_mem (l : List (Str × Str)) (uri : Str) (x : Str × Str)
    (hf : findNsIn l uri = some x) : x ∈ l ∧ begWith x.1 uri = true := by
  induction l with
  | nil => cases hf
  | cons a l2 ih =>
    rw [findNsIn] at hf
    split at hf
    · cases hf
      exact ⟨by simp, by assumption⟩
    · have := ih hf
      exact ⟨by simp [this.1], this.2⟩

/-- On a length-sorted table the lookup result has maximal length among matches. -/
theorem findNsIn_max (l : List (Str × Str)) (uri : Str) (x : Str × Str)
    (hs : List.Pairwise (fun a b : Str × Str => b.1.length ≤ a.1.length) l)
    (hf : findNsIn l uri = some x) :
    ∀ y ∈ l, begWith y.1 uri = true → y.1.length ≤ x.1.length := by
  induction l with
  | nil => cases hf
  | cons a l2 ih =>
    rw [findNsIn] at hf
    rw [List.pairwise_cons] at hs
    split at hf
    · cases hf
      intro y hy hby
      rcases List.mem_cons.mp hy with h | h
      · rw [h]
      · exact hs.1 y h
    · rename_i hneg
      intro y hy hby
      rcases List.mem_cons.mp hy with h | h
      · subst h
        exact absurd hby hneg
      · exact ih hs.2 hf y h hby

/-- A member that matches guarantees the lookup succeeds. -/
theorem findNsIn_found (l : List (Str × Str)) (uri : Str) (y : Str × Str)
    (hy : y ∈ l) (hb : begWith y.1 uri = true) : ∃ x, findNsIn l uri = some x := by
  induction l with
  | nil => cases hy
  | cons a l2 ih =>
    rw [findNsIn]
    split
    · exact ⟨a, rfl⟩
    · rename_i hneg
      rcases List.mem_cons.mp hy with h | h
      · subst h
        exact absurd hb hneg
      · exact ih h

/-- A successful bracketed-IRI match consumes at least one character. -/
theorem iriMatchAt_rest_lt (s m g r : Str) (h : iriMatchAt s = some (m, g, r)) :
    r.length < s.length := by
  cases s with
  | nil => cases h
  | cons c t =>
    simp only [iriMatchAt] at h
    by_cases hc : c = '<'
    · rw [if_pos hc] at h
      by_cases hg : (t.dropWhile isPySpace).takeWhile runChar = []
      · rw [if_pos hg] at h
        cases h
      · rw [if_neg hg] at h
        by_cases hh : (((t.dropWhile isPySpace).dropWhile runChar).dropWhile isPySpace).head? =
            some '>'
        · rw [if_pos hh] at h
          cases h
          have l1 : (t.dropWhile isPySpace).length ≤ t.length :=
            (List.dropWhile_sublist _).length_le
          have l2 : ((t.dropWhile isPySpace).dropWhile runChar).length ≤
              (t.dropWhile isPySpace).length := (List.dropWhile_sublist _).length_le
          have l3 : (((t.dropWhile isPySpace).dropWhile runChar).dropWhile isPySpace).length ≤
              ((t.dropWhile isPySpace).dropWhile runChar).length :=
            (List.dropWhile_sublist _).length_le
          have l4 : ((((t.dropWhile isPySpace).dropWhile runChar).dropWhile isPySpace).tail).length =
              (((t.dropWhile isPySpace).dropWhile runChar).dropWhile isPySpace).length - 1 :=
            List.length_tail _
          simp only [List.length_cons]
          omega
        · rw [if_neg hh] at h
          cases h
    · rw [if_neg hc] at h
      cases h

/-- A bracketed-IRI match never starts at a character other than an opening bracket. -/
theorem iriMatchAt_none (c : Char) (cs : Str) (h : ¬ c = '<') : iriMatchAt (c :: cs) = none := by
  rw [iriMatchAt]
  simp [h]

/-- The fuelled substitution pass is independent of the fuel once it covers the input. -/
theorem iriSubF_congr : ∀ (n f1 f2 : Nat) (s : Str), s.length ≤ n → s.length ≤ f1 →
    s.length ≤ f2 → iriSubF f1 s = iriSubF f2 s := by
  intro n
  induction n with
  | zero =>
    intro f1 f2 s hn _ _
    have : s = [] := List.eq_nil_of_length_eq_zero (Nat.le_zero.mp hn)
    subst this
    cases f1 <;> cases f2 <;> rfl
  | succ n ih =>
    intro f1 f2 s hn h1 h2
    cases s with
    | nil => cases f1 <;> cases f2 <;> rfl
    | cons c cs =>
      cases f1 with
      | zero => simp at h1
      | succ a =>
        cases f2 with
        | zero => simp at h2
        | succ b =>
          cases hM : iriMatchAt (c :: cs) with
          | none =>
            simp only [iriSubF, hM]
            simp only [List.length_cons] at hn h1 h2
            rw [ih a b cs (by omega) (by omega) (by omega)]
          | some x =>
            obtain ⟨m, g, r⟩ := x
            have hr := iriMatchAt_rest_lt (c :: cs) m g r hM
            simp only [iriSubF, hM]
            simp only [List.length_cons] at hn h1 h2 hr
            rw [ih a b r (by omega) (by omega) (by omega)]

/-- Substituting with fuel at least the length equals the plain substitution pass. -/
theorem iriSubF_eq_iriSub (f : Nat) (s : Str) (h : s.length ≤ f) : iriSubF f s = iriSub s :=
  iriSubF_congr f f s.length s h h le_rfl

/-- A string without an opening bracket is a fixed point of the substitution pass. -/
theorem iriSubF_of_noLt : ∀ (f : Nat) (s : Str), s.length ≤ f → '<' ∉ s → iriSubF f s = s := by
  intro f
  induction f with
  | zero =>
    intro s h _
    have : s = [] := List.eq_nil_of_length_eq_zero (Nat.le_zero.mp h)
    subst this
    rfl
  | succ a ih =>
    intro s h hmem
    cases s with
    | nil => rfl
    | cons c cs =>
      have hc : ¬ c = '<' := fun he => hmem (he ▸ List.mem_cons_self c cs)
      rw [iriSubF, iriMatchAt_none c cs hc]
      simp only [List.length_cons] at h
      rw [ih cs (by omega) (fun hm => hmem (List.mem_cons_of_mem c hm))]

/-- A string without an opening bracket is a fixed point of the substitution. -/
theorem iriSub_of_noLt (s : Str) (h : '<' ∉ s) : iriSub s = s :=
  iriSubF_of_noLt s.length s le_rfl h

/-- Text without an opening bracket passes through the substitution pass unchanged. -/
theorem iriSubF_append_noLt : ∀ (lit : Str) (rest : Str) (f : Nat),
    (lit ++ rest).length ≤ f → '<' ∉ lit →
    iriSubF f (lit ++ rest) = lit ++ iriSubF (f - lit.length) rest := by
  intro lit
  induction lit with
  | nil => simp
  | cons c lcs ih =>
    intro rest f hf hmem
    have hc : ¬ c = '<' := fun he => hmem (he ▸ List.mem_cons_self c lcs)
    cases f with
    | zero => simp at hf
    | succ a =>
      have hf2 : (lcs ++ rest).length ≤ a := by
        rw [List.cons_append, List.length_cons] at hf
        omega
      rw [List.cons_append, iriSubF, iriMatchAt_none c (lcs ++ rest) hc]
      rw [ih rest a hf2 (fun hm => hmem (List.mem_cons_of_mem c hm))]
      simp only [List.length_cons, List.cons_append]
      have he : a - lcs.length = a + 1 - (lcs.length + 1) := by omega
      rw [he]

/-- Bracket-free text ahead of the substitution point is copied verbatim. -/
theorem iriSub_append_noLt (lit rest : Str) (h : '<' ∉ lit) :
    iriSub (lit ++ rest) = lit ++ iriSub rest := by
  unfold iriSub
  rw [iriSubF_append_noLt lit rest (lit ++ rest).length le_rfl h]
  congr 2
  simp

/-- A string with no SELECT occurrence is a fixed point of the collapser. -/
theorem collapse_fixed_none (u : Str) (h : selectSearch u = none) :
    uriCollapseAfterSelect u = u := by
  unfold uriCollapseAfterSelect
  rw [h]

/-- A stripped bracket-free string with SELECT at its start is a fixed point of the collapser. -/
theorem collapse_fixed (u : Str) (h0 : selectSearch u = some 0) (hlt : '<' ∉ u)
    (hst : stripWs u = u) : uriCollapseAfterSelect u = u := by
  unfold uriCollapseAfterSelect
  rw [h0]
  simp only [List.drop_zero]
  rw [hst, iriSub_of_noLt u hlt]

/-- An association lookup that succeeds still succeeds after appending entries. -/
theorem lookupA_append_some {α : Type} (g t : List (Str × α)) (k : Str) (v : α)
    (h : lookupA g k = some v) : lookupA (g ++ t) k = some v := by
  induction g with
  | nil => cases h
  | cons p rest ih =>
    obtain ⟨k2, v2⟩ := p
    rw [List.cons_append, lookupA]
    rw [lookupA] at h
    split at h
    · rw [if_pos (by assumption)]
      exact h
    · rw [if_neg (by assumption)]
      exact ih h

/-- A setdefault step never changes an existing binding. -/
theorem setdefault_some (g : List (Str × Str)) (k2 v2 k v : Str)
    (h : lookupA g k = some v) : lookupA (setdefault g k2 v2) k = some v := by
  unfold setdefault
  split
  · exact h
  · exact lookupA_append_some g [(k2, v2)] k v h

/-- Merging a local table never changes an existing global binding. -/
theorem mergePfx_some : ∀ (l g : List (Str × Str)) (k v : Str),
    lookupA g k = some v → lookupA (mergePfx g l) k = some v := by
  intro l
  induction l with
  | nil => exact fun g k v h => h
  | cons p ps ih =>
    intro g k v h
    rw [mergePfx, List.foldl_cons]
    exact ih (setdefault g p.1 p.2) k v (setdefault_some g p.1 p.2 k v h)

/-- One record step of parse_sparql never changes an existing global binding. -/
theorem processRecord_global (g : List (Str × Str)) (r : Record) (g1 : List (Str × Str))
    (out : RecordOut) (h : processRecord g r = .ok (g1, out)) :
    ∀ k v, lookupA g k = some v → lookupA g1 k = some v := by
  intro k v hkv
  cases hA : processAnswers r.answers with
  | error e =>
    simp only [processRecord, hA] at h
    exact Except.noConfusion h
  | ok m =>
    cases hW : whereSearch (effQuery r) with
    | none =>
      simp only [processRecord, hA, hW, Except.ok.injEq, Prod.mk.injEq] at h
      rw [← h.1]
      exact mergePfx_some _ g k v hkv
    | some w =>
      simp only [processRecord, hA, hW, Except.ok.injEq, Prod.mk.injEq] at h
      rw [← h.1]
      exact mergePfx_some _ g k v hkv

/-- The batch loop of parse_sparql never changes an existing global binding. -/
theorem parseAux_global : ∀ (rs : List Record) (g gF : List (Str × Str)) (outs : List RecordOut),
    parseSparqlAux g rs = .ok (gF, outs) →
    ∀ k v, lookupA g k = some v → lookupA gF k = some v := by
  intro rs
  induction rs with
  | nil =>
    intro g gF outs h k v hkv
    rw [parseSparqlAux] at h
    cases h
    exact hkv
  | cons r rest ih =>
    intro g gF outs h k v hkv
    cases hP : processRecord g r with
    | error e =>
      simp only [parseSparqlAux, hP] at h
      exact Except.noConfusion h
    | ok p =>
      obtain ⟨g1, out⟩ := p
      cases hR : parseSparqlAux g1 rest with
      | error e =>
        simp only [parseSparqlAux, hP, hR] at h
        exact Except.noConfusion h
      | ok q =>
        obtain ⟨g2, outs2⟩ := q
        simp only [parseSparqlAux, hP, hR, Except.ok.injEq, Prod.mk.injEq] at h
        rw [← h.1]
        exact ih g1 g2 outs2 hR k v (processRecord_global g r g1 out hP k v hkv)

/-- Answer indexing raises as soon as the list holds an empty-mapping entry. -/
theorem ansGo_error_of_empty : ∀ (l : List Answer) (acc : List (Str × List Str)),
    Answer.map [] ∈ l → ansGo acc l = .error () := by
  intro l
  induction l with
  | nil =>
    intro acc h
    cases h
  | cons a rest ih =>
    intro acc hmem
    cases a with
    | bool b =>
      rw [ansGo]
      rcases List.mem_cons.mp hmem with h | h
      · cases h
      · exact ih acc h
    | map entries =>
      cases entries with
      | nil => rfl
      | cons e es =>
        obtain ⟨k, obj⟩ := e
        rw [ansGo]
        cases hL : lookupA obj "value".data with
        | none => rfl
        | some v =>
          rcases List.mem_cons.mp hmem with h | h
          · cases h
          · exact ih _ h

/-- Answer indexing returns normally on a list of well-formed entries. -/
theorem ansGo_ok_of_good : ∀ (l : List Answer) (acc : List (Str × List Str)),
    (∀ a ∈ l, goodAns a = true) → ∃ m, ansGo acc l = .ok m := by
  intro l
  induction l with
  | nil => exact fun acc _ => ⟨acc, rfl⟩
  | cons a rest ih =>
    intro acc hg
    cases a with
    | bool b =>
      rw [ansGo]
      exact ih acc (fun x hx => hg x (List.mem_cons_of_mem _ hx))
    | map entries =>
      cases entries with
      | nil =>
        have := hg (Answer.map []) (List.mem_cons_self _ _)
        cases this
      | cons e es =>
        obtain ⟨k, obj⟩ := e
        rw [ansGo]
        have hv := hg (Answer.map ((k, obj) :: es)) (List.mem_cons_self _ _)
        rw [goodAns] at hv
        cases hL : lookupA obj "value".data with
        | none =>
          rw [hL] at hv
          cases hv
        | some v => exact ih _ (fun x hx => hg x (List.mem_cons_of_mem _ hx))

/-- A record holding an empty-mapping answer makes its processing raise. -/
theorem processRecord_error (g : List (Str × Str)) (r : Record)
    (h : Answer.map [] ∈ r.answers) : processRecord g r = .error () := by
  have hA : processAnswers r.answers = .error () := ansGo_error_of_empty r.answers [] h
  simp only [processRecord, hA]

/-- A record whose answers are all well-formed processes normally. -/
theorem processRecord_ok (g : List (Str × Str)) (r : Record)
    (h : ∀ a ∈ r.answers, goodAns a = true) :
    ∃ g1 out, processRecord g r = .ok (g1, out) := by
  obtain ⟨m, hm⟩ := ansGo_ok_of_good r.answers [] h
  have hA : processAnswers r.answers = .ok m := hm
  cases hW : whereSearch (effQuery r) with
  | none =>
    refine ⟨mergePfx g (locTbl r), ⟨m, []⟩, ?_⟩
    simp only [processRecord, hA, hW]
  | some w =>
    refine ⟨mergePfx g (locTbl r), ⟨m, (((topLevelBlocks w).map extractTriples).flatten).map
      (fun tri => tri.map (expandTok (locTbl r)))⟩, ?_⟩
    simp only [processRecord, hA, hW]

/-- Success on the embedded exception monad means an ok value exists. -/
theorem exOk_true_iff {α : Type} (e : Except Unit α) : exOk e = true ↔ ∃ x, e = .ok x := by
  cases e <;> simp [exOk]

/-- Claim C1 is false on the code: record A declares ex, record B uses ex:Foo without a
local declaration, the global table receives the binding, yet record B's emitted triple
keeps the token ex:Foo unexpanded instead of expanding it with record A's declaration. -/
theorem c1_counterexample :
    parseSparqlAux []
      [⟨some "PREFIX ex: <http://ex.org/> SELECT ?u WHERE \x7b ?u ex:Bar ?z \x7d".data,
        none, []⟩,
       ⟨some "SELECT ?y WHERE \x7b ?y ex:Foo ?w \x7d".data, none, []⟩] =
      .ok ([("ex".data, "http://ex.org/".data)],
        [⟨[], [["?u".data, "http://ex.org/:Bar".data, "?z".data]]⟩,
         ⟨[], [["?y".data, "ex:Foo".data, "?w".data]]⟩]) ∧
    "ex:Foo".data ≠ "http://ex.org/:Foo".data :=
  ⟨rfl, by decide⟩

/-- Claim C1 amended: parse_sparql accumulates declarations into the global table, but
expansion consults only the record-local table, so a record's emitted output is entirely
independent of the global table it is handed. -/
theorem c1_amended (g1 g2 : List (Str × Str)) (r : Record) :
    (processRecord g1 r).map (fun p => p.2) = (processRecord g2 r).map (fun p => p.2) := by
  cases hA : processAnswers r.answers with
  | error e => simp only [processRecord, hA, Except.map]
  | ok m =>
    cases hW : whereSearch (effQuery r) with
    | none => simp only [processRecord, hA, hW, Except.map]
    | some w => simp only [processRecord, hA, hW, Except.map]

/-- Claim C2, evaluated on the code at the failing input: the non-greedy WHERE pattern
stops at the first closing brace, so the UNION example yields exactly one triple, for the
first alternative only, instead of the two triples the claim requires. -/
theorem c2_code_eval :
    parseSparqlAux []
      [⟨some ("SELECT ?x WHERE \x7b \x7b ?x a dbo:Person \x7d UNION " ++
        "\x7b ?x a dbo:Place \x7d \x7d").data, none, []⟩] =
      .ok ([], [⟨[], [["?x".data, "a".data, "dbo:Person".data]]⟩]) ∧
    ([["?x".data, "a".data, "dbo:Person".data]] : List (List Str)).length = 1 :=
  ⟨rfl, rfl⟩

/-- Claim C3 is false on the code: the collapser returns only the slice of the input from
the SELECT token onward, so a PREFIX block before SELECT is absent from the output. -/
theorem c3_counterexample :
    hasSub "PREFIX".data "PREFIX ex: <http://ex.org/> SELECT ?x".data = true ∧
    hasSub "PREFIX".data
      (uriCollapseAfterSelect "PREFIX ex: <http://ex.org/> SELECT ?x".data) = false ∧
    uriCollapseAfterSelect "PREFIX ex: <http://ex.org/> SELECT ?x".data =
      "SELECT ?x".data :=
  ⟨rfl, rfl, rfl⟩

/-- Claim C3 amended: the output depends only on the text from the first SELECT onward,
the part before SELECT being dropped rather than preserved, and within the retained text
every bracket-free region ahead of the substitution point passes through unchanged. -/
theorem c3_amended :
    (∀ (s1 s2 : Str) (i1 i2 : Nat), selectSearch s1 = some i1 → selectSearch s2 = some i2 →
      s1.drop i1 = s2.drop i2 → uriCollapseAfterSelect s1 = uriCollapseAfterSelect s2) ∧
    (∀ lit rest : Str, '<' ∉ lit → iriSub (lit ++ rest) = lit ++ iriSub rest) := by
  constructor
  · intro s1 s2 i1 i2 h1 h2 hd
    simp only [uriCollapseAfterSelect, h1, h2, hd]
  · exact iriSub_append_noLt

/-- Witness of the amended claim C3 at concrete inputs. -/
theorem c3_witness :
    uriCollapseAfterSelect "PREFIX p: <http://q.r/> SELECT ?x".data =
      uriCollapseAfterSelect "SELECT ?x".data ∧
    iriSub ("abc ".data ++ "<http://dbpedia.org/ontology/k>".data) =
      "abc ".data ++ iriSub "<http://dbpedia.org/ontology/k>".data := by
  constructor
  · exact c3_amended.1 _ _ 24 0 (by rfl) (by rfl) (by rfl)
  · exact c3_amended.2 "abc ".data "<http://dbpedia.org/ontology/k>".data (by decide)

/-- Claim C4, evaluated on the code at the failing input: the FILTER-stripping pattern
cannot cross the first closing parenthesis, so the nested example leaves residue that is
tokenized into two spurious triples instead of the single intended pattern, while a
parenthesis-free FILTER body is stripped cleanly. -/
theorem c4_code_eval :
    extractTriples "FILTER(STRSTARTS(STR(?x), \"http://a.b/\")) ?s ?p ?o .".data =
      [["\"http://a.b/\"".data, "?s".data, "?p".data],
       ["\"http://a.b/\"".data, "?s".data, "?o".data]] ∧
    extractTriples "FILTER(?x > 5) ?s ?p ?o .".data =
      [["?s".data, "?p".data, "?o".data]] :=
  ⟨rfl, rfl⟩

/-- Claim C5 is false on the code: collapsing is not idempotent, an IRI whose interior
contains a second opening bracket collapses into text that a second pass collapses again. -/
theorem c5_counterexample :
    uriCollapseAfterSelect (uriCollapseAfterSelect
      "SELECT <http://dbpedia.org/ontology/<http://dbpedia.org/ontology/B>C>".data) ≠
    uriCollapseAfterSelect
      "SELECT <http://dbpedia.org/ontology/<http://dbpedia.org/ontology/B>C>".data := by
  decide

/-- Claim C5 amended: collapsing is idempotent on every input whose collapsed output
either has no SELECT occurrence, or still starts with a word-bounded SELECT while holding
no remaining opening bracket and no surrounding whitespace. -/
theorem c5_amended (T : Str)
    (h : selectSearch (uriCollapseAfterSelect T) = none ∨
      (selectSearch (uriCollapseAfterSelect T) = some 0 ∧
        '<' ∉ uriCollapseAfterSelect T ∧
        stripWs (uriCollapseAfterSelect T) = uriCollapseAfterSelect T)) :
    uriCollapseAfterSelect (uriCollapseAfterSelect T) = uriCollapseAfterSelect T := by
  rcases h with h | ⟨h0, hlt, hst⟩
  · exact collapse_fixed_none _ h
  · exact collapse_fixed _ h0 hlt hst

/-- Witness of the amended claim C5 at a concrete input. -/
theorem c5_witness :
    uriCollapseAfterSelect (uriCollapseAfterSelect
      "PREFIX ex: <http://ex.org/x> SELECT <http://dbpedia.org/ontology/b>".data) =
    uriCollapseAfterSelect
      "PREFIX ex: <http://ex.org/x> SELECT <http://dbpedia.org/ontology/b>".data :=
  c5_amended _ (Or.inr ⟨by decide, by decide, by decide⟩)

/-- Claim C6 is false on the code: the replacement strips every leading colon of the
remainder, not exactly one, so a double-colon remainder loses both colons. -/
theorem c6_counterexample :
    uriCollapseAfterSelect "SELECT <http://dbpedia.org/ontology/::x>".data =
      "SELECT dbo:x".data ∧
    "SELECT dbo:x".data ≠ "SELECT dbo::x".data :=
  ⟨rfl, by decide⟩

/-- Claim C6 amended: on a match the emitted token is the prefix, a colon, and the
remainder with all of its leading colons removed. -/
theorem c6_amended (s m : Str) (h : ∀ c ∈ s, isPySpace c = false) :
    replUri m ("http://dbpedia.org/ontology/".data ++ s) = "dbo:".data ++ dropColons s := by
  have hbase : ∀ c ∈ "http://dbpedia.org/ontology/".data, isPySpace c = false := by decide
  have hstrip : stripWs ("http://dbpedia.org/ontology/".data ++ s) =
      "http://dbpedia.org/ontology/".data ++ s := by
    apply stripWs_eq_self
    intro c hc
    rcases List.mem_append.mp hc with h1 | h1
    · exact hbase c h1
    · exact h c h1
  have e1 : begWith "http://www.w3.org/1999/02/22-rdf-syntax-ns#".data
      ("http://dbpedia.org/ontology/".data ++ s) = false :=
    begWith_append_false _ _ s (by decide) (by decide)
  have e2 : begWith "http://www.w3.org/2003/01/geo/wgs84_pos#".data
      ("http://dbpedia.org/ontology/".data ++ s) = false :=
    begWith_append_false _ _ s (by decide) (by decide)
  have e3 : begWith "http://www.w3.org/2000/01/rdf-schema#".data
      ("http://dbpedia.org/ontology/".data ++ s) = false :=
    begWith_append_false _ _ s (by decide) (by decide)
  have e4 : begWith "http://www.w3.org/2004/02/skos/core#".data
      ("http://dbpedia.org/ontology/".data ++ s) = false :=
    begWith_append_false _ _ s (by decide) (by decide)
  have e5 : begWith "http://www.w3.org/2001/XMLSchema#".data
      ("http://dbpedia.org/ontology/".data ++ s) = false :=
    begWith_append_false _ _ s (by decide) (by decide)
  have e6 : begWith "http://purl.org/linguistics/gold/".data
      ("http://dbpedia.org/ontology/".data ++ s) = false :=
    begWith_append_false _ _ s (by decide) (by decide)
  have e7 : begWith "http://purl.org/dc/elements/1.1/".data
      ("http://dbpedia.org/ontology/".data ++ s) = false :=
    begWith_append_false _ _ s (by decide) (by decide)
  have e8 : begWith "http://dbpedia.org/class/yago/".data
      ("http://dbpedia.org/ontology/".data ++ s) = false :=
    begWith_append_false _ _ s (by decide) (by decide)
  have e9 : begWith "http://www.w3.org/2002/07/owl#".data
      ("http://dbpedia.org/ontology/".data ++ s) = false :=
    begWith_append_false _ _ s (by decide) (by decide)
  have e10 : begWith "http://www.georss.org/georss/".data
      ("http://dbpedia.org/ontology/".data ++ s) = false :=
    begWith_append_false _ _ s (by decide) (by decide)
  have hfind : findNs ("http://dbpedia.org/ontology/".data ++ s) =
      some ("http://dbpedia.org/ontology/".data, "dbo".data) := by
    unfold findNs
    rw [nsOrderEq, findNsIn_cons_false _ _ _ e1, findNsIn_cons_false _ _ _ e2,
      findNsIn_cons_false _ _ _ e3, findNsIn_cons_false _ _ _ e4,
      findNsIn_cons_false _ _ _ e5, findNsIn_cons_false _ _ _ e6,
      findNsIn_cons_false _ _ _ e7, findNsIn_cons_false _ _ _ e8,
      findNsIn_cons_false _ _ _ e9, findNsIn_cons_false _ _ _ e10,
      findNsIn_cons_true _ _ _ (begWith_append _ s)]
  simp only [replUri, hstrip, hfind]
  rw [List.drop_left]
  rfl

/-- Witness of the amended claim C6 at a concrete input with a double colon. -/
theorem c6_witness :
    replUri [] ("http://dbpedia.org/ontology/".data ++ "::x".data) =
      "dbo:".data ++ dropColons "::x".data :=
  c6_amended "::x".data [] (by decide)

/-- Claim C7: the namespace lookup on the length-sorted table returns a matching table
namespace of maximal length, and never returns the strictly shorter of two overlapping
namespaces that both cover the IRI. -/
theorem c7_longest_match (uri ns1 p1 ns2 p2 : Str)
    (h1 : (ns1, p1) ∈ NS_MAP) (h2 : (ns2, p2) ∈ NS_MAP)
    (h12 : begWith ns1 ns2 = true) (hne : ns1 ≠ ns2) (hu : begWith ns2 uri = true) :
    ∃ nsp : Str × Str, findNs uri = some nsp ∧ nsp ∈ NS_MAP ∧ begWith nsp.1 uri = true ∧
      ns2.length ≤ nsp.1.length ∧ findNs uri ≠ some (ns1, p1) := by
  have hmem2 : (ns2, p2) ∈ NS_ORDER := nsOrder_perm.mem_iff.mpr h2
  obtain ⟨x, hx⟩ := findNsIn_found NS_ORDER uri (ns2, p2) hmem2 hu
  have hxm := findNsIn_mem NS_ORDER uri x hx
  have hmax := findNsIn_max NS_ORDER uri x nsOrder_sorted hx (ns2, p2) hmem2 hu
  have hlt : ns1.length < ns2.length := by
    rcases Nat.lt_or_ge ns1.length ns2.length with hl | hg
    · exact hl
    · exact absurd (begWith_eq_of_length ns1 ns2 h12 hg) hne
  refine ⟨x, hx, nsOrder_perm.mem_iff.mp hxm.1, hxm.2, hmax, ?_⟩
  intro hcon
  unfold findNs at hcon
  rw [hx] at hcon
  injection hcon with hxe
  have hmax2 : ns2.length ≤ ns1.length := by
    have hm := hmax
    rw [hxe] at hm
    simpa using hm
  omega

/-- Witness of claim C7 on a resource IRI covered by two overlapping namespaces. -/
theorem c7_witness : ∃ nsp : Str × Str,
    findNs "http://dbpedia.org/resource/Paris".data = some nsp ∧ nsp ∈ NS_MAP ∧
    begWith nsp.1 "http://dbpedia.org/resource/Paris".data = true ∧
    ("http://dbpedia.org/resource/".data).length ≤ nsp.1.length ∧
    findNs "http://dbpedia.org/resource/Paris".data ≠
      some ("http://dbpedia.org/".data, "dbpedia".data) :=
  c7_longest_match "http://dbpedia.org/resource/Paris".data
    "http://dbpedia.org/".data "dbpedia".data
    "http://dbpedia.org/resource/".data "res".data
    (by decide) (by decide) (by decide) (by decide) (by decide)

/-- Claim C8: a comma keeps both subject and predicate so two objects share them, while a
semicolon clears only the predicate so two predicate-object pairs share the subject. -/
theorem c8_separator_semantics :
    extractTriples "?s ?p ?o1 , ?o2 .".data =
      [["?s".data, "?p".data, "?o1".data], ["?s".data, "?p".data, "?o2".data]] ∧
    extractTriples "?s ?p1 ?o1 ; ?p2 ?o2 .".data =
      [["?s".data, "?p1".data, "?o1".data], ["?s".data, "?p2".data, "?o2".data]] :=
  ⟨rfl, rfl⟩

/-- Claim C9: the batch loop starts from any given global table and never overwrites or
removes an entry, so an existing binding survives any sequence of records, also under
redeclaration, and the key set only grows. -/
theorem c9_global_monotone (rs : List Record) (g gF : List (Str × Str))
    (outs : List RecordOut) (h : parseSparqlAux g rs = .ok (gF, outs)) :
    (∀ k v, lookupA g k = some v → lookupA gF k = some v) ∧
    (∀ k, (lookupA g k).isSome = true → (lookupA gF k).isSome = true) := by
  refine ⟨parseAux_global rs g gF outs h, ?_⟩
  intro k hk
  obtain ⟨v, hv⟩ := Option.isSome_iff_exists.mp hk
  rw [parseAux_global rs g gF outs h k v hv]
  rfl

/-- Witness of claim C9: a record redeclaring ex with a different IRI leaves the earlier
binding in place. -/
theorem c9_witness :
    lookupA [("ex".data, "http://a.org/".data)] "ex".data = some "http://a.org/".data :=
  (c9_global_monotone [⟨some "PREFIX ex: <http://b.org/> SELECT 1".data, none, []⟩]
    [("ex".data, "http://a.org/".data)] [("ex".data, "http://a.org/".data)]
    [⟨[], []⟩] (by rfl)).1 "ex".data "http://a.org/".data (by rfl)

/-- Claim C10: a batch holding a record with an empty-mapping answer entry makes
parse_sparql raise instead of returning, and a batch whose non-boolean answer entries are
all non-empty mappings whose first value carries a value field returns normally. -/
theorem c10_answers_totality (g : List (Str × Str)) (rs : List Record) :
    ((∃ r ∈ rs, Answer.map [] ∈ r.answers) → exOk (parseSparqlAux g rs) = false) ∧
    ((∀ r ∈ rs, ∀ a ∈ r.answers, goodAns a = true) → exOk (parseSparqlAux g rs) = true) := by
  induction rs generalizing g with
  | nil =>
    constructor
    · rintro ⟨r, hr, _⟩
      cases hr
    · intro _
      rfl
  | cons r rest ih =>
    constructor
    · rintro ⟨r2, hr2, hmem⟩
      rcases List.mem_cons.mp hr2 with he | he
      · subst he
        simp only [parseSparqlAux, processRecord_error g r2 hmem, exOk]
      · cases hP : processRecord g r with
        | error e => simp only [parseSparqlAux, hP, exOk]
        | ok p =>
          obtain ⟨g1, out⟩ := p
          have hrec := (ih g1).1 ⟨r2, he, hmem⟩
          cases hR : parseSparqlAux g1 rest with
          | error e2 => simp only [parseSparqlAux, hP, hR, exOk]
          | ok q =>
            rw [hR] at hrec
            simp [exOk] at hrec
    · intro hgood
      obtain ⟨g1, out, hP⟩ := processRecord_ok g r (hgood r (List.mem_cons_self r rest))
      have hrec := (ih g1).2 (fun x hx => hgood x (List.mem_cons_of_mem r hx))
      rw [exOk_true_iff] at hrec
      obtain ⟨q, hq⟩ := hrec
      obtain ⟨g2, outs2⟩ := q
      simp only [parseSparqlAux, hP, hq, exOk]

/-- Witness of claim C10 on a raising batch and a returning batch. -/
theorem c10_witness :
    exOk (parseSparqlAux [] [⟨some "q".data, none, [Answer.map []]⟩]) = false ∧
    exOk (parseSparqlAux [] [⟨some "q".data, none,
      [Answer.bool true, Answer.map [("a".data, [("value".data, "V".data)])]]⟩]) = true := by
  constructor
  · exact (c10_answers_totality [] _).1 (by decide)
  · exact (c10_answers_totality [] _).2 (by decide)

end DyCoT
